import Mathlib

/-!
# Verification of the MyBible in-memory storage and query component

Shallow embedding of `server/storage.ts` (class `MemStorage`) and the parts
of `shared/schema.ts` it depends on.  JavaScript `Map` objects are modelled
as association lists preserving insertion order (as JS `Map` iteration
does); `Map.set` replaces in place when a key is present and appends
otherwise, `Map.get` finds the entry with the key, `Map.delete` removes it.
JS strings are Lean `String`s / `List Char`; numbers that the code uses as
integers (ids, chapter, verse, counters) are `Nat`.
-/

namespace MyBible

/-- `shared/schema.ts`: a row of the `bible_books` table. -/
structure BibleBook where
  id : Nat
  name : String
  testament : String
  chapters : Nat
  order : Nat
deriving DecidableEq, Repr

/-- `shared/schema.ts`: a row of the `bible_verses` table. -/
structure BibleVerse where
  id : Nat
  book : String
  chapter : Nat
  verse : Nat
  text : String
deriving DecidableEq, Repr

/-- `shared/schema.ts`: a row of the `highlights` table. -/
structure Highlight where
  id : Nat
  verseId : String
  color : String
  userId : String
deriving DecidableEq, Repr

/-- `shared/schema.ts`: a row of the `bookmarks` table. -/
structure Bookmark where
  id : Nat
  verseId : String
  userId : String
deriving DecidableEq, Repr

/-- `insertHighlightSchema` omits `id`; `userId` has a schema default, so it
is optional in the insert record (`Option`).  An absent or falsy (empty)
`userId` is replaced by `"default"` in `createHighlight`. -/
structure InsertHighlight where
  verseId : String
  color : String
  userId : Option String
deriving DecidableEq, Repr

/-- `insertBookmarkSchema` omits `id`; `userId` optional as for highlights. -/
structure InsertBookmark where
  verseId : String
  userId : Option String
deriving DecidableEq, Repr

/-! ## JavaScript `Map` model -/

/-- A JS `Map` as an insertion-ordered association list. -/
abbrev MapL (α β : Type) : Type := List (α × β)

namespace MapL

/-- `Map.prototype.set`: replace in place if the key exists, else append. -/
def set {α β : Type} [DecidableEq α] (m : MapL α β) (k : α) (v : β) : MapL α β :=
  if (List.any m (fun p => p.1 = k)) then
    List.map (fun p => if p.1 = k then (k, v) else p) m
  else
    m ++ [(k, v)]

/-- `Map.prototype.get`: the value stored under `k`, if any. -/
def get {α β : Type} [DecidableEq α] (m : MapL α β) (k : α) : Option β :=
  Option.map Prod.snd (List.find? (fun p => p.1 = k) m)

/-- `Map.prototype.has`. -/
def has {α β : Type} [DecidableEq α] (m : MapL α β) (k : α) : Bool :=
  List.any m (fun p => p.1 = k)

/-- `Map.prototype.delete`: remove the entry with key `k` (keys are unique
in a real `Map`; on the list model this removes the first such entry). -/
def del {α β : Type} [DecidableEq α] (m : MapL α β) (k : α) : MapL α β :=
  List.eraseP (fun p => decide (p.1 = k)) m

/-- `Array.from(m.values())`: the values in insertion order. -/
def values {α β : Type} (m : MapL α β) : List β :=
  List.map Prod.snd m

end MapL

/-! ## JavaScript string helpers -/

/-- The character class `\s` of the regex / the whitespace removed by
`String.prototype.trim` (ASCII part: space, tab, LF, VT, FF, CR). -/
def isJsSpace (c : Char) : Bool :=
  c = ' ' || c = '\t' || c = '\n' || c = '\x0b' || c = '\x0c' || c = '\r'

/-- The character class `[a-zA-Z]`. -/
def isAsciiLetter (c : Char) : Bool :=
  ('a' ≤ c && c ≤ 'z') || ('A' ≤ c && c ≤ 'Z')

/-- `String.prototype.trim` on a character list. -/
def jsTrim (s : List Char) : List Char :=
  List.dropWhile isJsSpace (List.reverse (List.dropWhile isJsSpace (List.reverse s)))

/-- `String.prototype.toLowerCase` (ASCII), producing a character list. -/
def lowerList (s : String) : List Char :=
  List.map Char.toLower s.toList

/-- `a.includes(b)` for JS strings, on character lists: substring test. -/
def jsIncludes (hay sub : List Char) : Bool :=
  decide (List.IsInfix sub hay)

/-- Little-endian decimal digits of `n`; `fuel` bounds the recursion and
any `fuel > n` is enough. -/
def decDigitsLE : Nat → Nat → List Nat
  | 0, _ => []
  | f + 1, n => if n < 10 then [n] else n % 10 :: decDigitsLE f (n / 10)

/-- Decimal rendering of a `Nat`, modelling the template literal `${n}`. -/
def natToDec (n : Nat) : List Char :=
  List.reverse (List.map Nat.digitChar (decDigitsLE (n + 1) n))

/-- `parseInt(s, 10)` on a digit string: the decimal value. -/
def decVal (l : List Char) : Nat :=
  List.foldl (fun a c => 10 * a + (c.toNat - 48)) 0 l

/-- The composite key "book:chapter:verse" (template literal at
`storage.ts:96`, `storage.ts:130` and `storage.ts:153`). -/
def verseKey (book : String) (chapter verse : Nat) : List Char :=
  book.toList ++ [':'] ++ natToDec chapter ++ [':'] ++ natToDec verse

/-! ## The store state -/

/-- The private fields of `MemStorage` (`storage.ts:44-51`).  The verses
map is keyed by the composite string key, here as `List Char`. -/
structure MemStorage where
  books : MapL Nat BibleBook
  verses : MapL (List Char) BibleVerse
  highlightsList : MapL Nat Highlight
  bookmarksList : MapL Nat Bookmark
  currentBookId : Nat
  currentVerseId : Nat
  currentHighlightId : Nat
  currentBookmarkId : Nat

/-- The state before any loading: empty maps, all counters 1. -/
def emptyStorage : MemStorage :=
  { books := [], verses := [], highlightsList := [], bookmarksList := [],
    currentBookId := 1, currentVerseId := 1,
    currentHighlightId := 1, currentBookmarkId := 1 }

/-! ## Read accessors (`storage.ts:135-199`) -/

/-- `getAllBooks` (`storage.ts:135-137`): all books sorted ascending by
`order` (JS `sort` with comparator `a.order - b.order`, stable). -/
def getAllBooks (st : MemStorage) : List BibleBook :=
  List.mergeSort (MapL.values st.books) (fun a b => a.order ≤ b.order)

/-- `getBookByName` (`storage.ts:139-141`): first book with exactly
matching name. -/
def getBookByName (st : MemStorage) (name : String) : Option BibleBook :=
  List.find? (fun book => book.name = name) (MapL.values st.books)

/-- `getVersesByBook` (`storage.ts:143-150`).  The `chapter` parameter is
optional; the filter `if (chapter && verse.chapter !== chapter)` only
applies when `chapter` is truthy (present and non-zero).  The result is
sorted by `a.verse - b.verse` (stable ascending sort on `verse`). -/
def getVersesByBook (st : MemStorage) (book : String) (chapter : Option Nat) :
    List BibleVerse :=
  let kept := List.filter (fun v =>
    if v.book ≠ book then false
    else if (match chapter with
        | some c => c ≠ 0 && v.chapter ≠ c
        | none => false : Bool) then false
    else true) (MapL.values st.verses)
  List.mergeSort kept (fun a b => a.verse ≤ b.verse)

/-- `getVerse` (`storage.ts:152-155`): lookup by the composite key. -/
def getVerse (st : MemStorage) (book : String) (chapter verse : Nat) :
    Option BibleVerse :=
  MapL.get st.verses (verseKey book chapter verse)

/-! ## The query resolver (`storage.ts:157-199`)

The verse-reference check uses the JS regex
`/^([1-3]?\s*[a-zA-Z\s]+)\s*(\d+):(\d+)$/` on the trimmed, lower-cased
query.  `verseRefParse` below is the deterministic unfolding of that
backtracking match:

* `[1-3]?` consumes a leading `1`/`2`/`3` exactly when one is present
  (if backtracking later retries with the empty alternative, the digit is
  neither `\s` nor `[a-zA-Z\s]`, so the retry fails at once);
* `\s*[a-zA-Z\s]+` together match any non-empty run of letters/whitespace
  (both classes contain `\s`, so every split of the maximal run gives the
  same overall result, and group 1 always spans the whole run up to
  trailing-whitespace trimming, which the subsequent `.trim()` erases);
* after the maximal run the next character is neither a letter nor
  whitespace, so the ungrouped `\s*` matches the empty string, `(\d+)`
  must match the maximal digit run (shrinking it puts a digit where `:`
  is required), then `:`, then `(\d+)$` forces the non-empty all-digit
  remainder.

It returns the captured (group-1 text, chapter digits value, verse digits
value) or `none` when the regex does not match. -/

def verseRefParse (s : List Char) : Option (List Char × Nat × Nat) :=
  let pr : List Char × List Char :=
    match s with
    | c :: cs => if c = '1' || c = '2' || c = '3' then ([c], cs) else ([], s)
    | [] => ([], [])
  let run := List.takeWhile (fun c => isAsciiLetter c || isJsSpace c) pr.2
  let rest := List.dropWhile (fun c => isAsciiLetter c || isJsSpace c) pr.2
  if run.isEmpty then none
  else
    let d1 := List.takeWhile Char.isDigit rest
    let rest2 := List.dropWhile Char.isDigit rest
    if d1.isEmpty then none
    else
      match rest2 with
      | ':' :: d2 =>
        if d2.isEmpty then none
        else if List.all d2 Char.isDigit then
          some (pr.1 ++ run, decVal d1, decVal d2)
        else none
      | _ => none

/-- `searchVerses` (`storage.ts:157-199`). -/
def searchVerses (st : MemStorage) (query : String) : List BibleVerse :=
  let lowercaseQuery := jsTrim (lowerList query)
  match verseRefParse lowercaseQuery with
  | some (bookName, chapter, verse) =>
    let cleanBookName := List.map Char.toLower (jsTrim bookName)
    let matchingVerse := List.find? (fun v =>
      jsIncludes (lowerList v.book) cleanBookName &&
      v.chapter = chapter && v.verse = verse) (MapL.values st.verses)
    match matchingVerse with
    | some v => [v]
    | none => []
  | none =>
    let bookNameMatch := List.filter (fun v =>
      jsIncludes (lowerList v.book) lowercaseQuery) (MapL.values st.verses)
    if bookNameMatch.length > 0 ∧ lowercaseQuery.length > 2 then
      match bookNameMatch with
      | [] => []
      | first :: _ =>
        List.take 10 (List.filter (fun v =>
          v.book = first.book && v.chapter = 1) (MapL.values st.verses))
    else
      List.filter (fun v =>
        jsIncludes (lowerList v.text) lowercaseQuery ||
        jsIncludes (lowerList v.book) lowercaseQuery) (MapL.values st.verses)

/-! ## Highlights and bookmarks (`storage.ts:201-249`) -/

/-- `getHighlights` (`storage.ts:201-205`); the parameter defaults to
`"default"` when absent (`undefined`). -/
def getHighlights (st : MemStorage) (userId : Option String) : List Highlight :=
  let uid := userId.getD "default"
  List.filter (fun h => h.userId = uid) (MapL.values st.highlightsList)

/-- `createHighlight` (`storage.ts:207-215`): assign the next highlight id
(post-increment), default a falsy `userId` (`undefined` or `""`) to
`"default"`, store under the id. -/
def createHighlight (st : MemStorage) (ins : InsertHighlight) :
    MemStorage × Highlight :=
  let newHighlight : Highlight :=
    { id := st.currentHighlightId
      verseId := ins.verseId
      color := ins.color
      userId := match ins.userId with
        | none => "default"
        | some u => if u = "" then "default" else u }
  ({ st with
      currentHighlightId := st.currentHighlightId + 1
      highlightsList := MapL.set st.highlightsList newHighlight.id newHighlight },
   newHighlight)

/-- `deleteHighlight` (`storage.ts:217-224`): find the first highlight
matching `(verseId, userId)` and remove it by id; no-op when absent. -/
def deleteHighlight (st : MemStorage) (verseId : String) (userId : Option String) :
    MemStorage :=
  let uid := userId.getD "default"
  match List.find? (fun h => h.verseId = verseId && h.userId = uid)
      (MapL.values st.highlightsList) with
  | some h => { st with highlightsList := MapL.del st.highlightsList h.id }
  | none => st

/-- `getBookmarks` (`storage.ts:226-230`). -/
def getBookmarks (st : MemStorage) (userId : Option String) : List Bookmark :=
  let uid := userId.getD "default"
  List.filter (fun b => b.userId = uid) (MapL.values st.bookmarksList)

/-- `createBookmark` (`storage.ts:232-240`). -/
def createBookmark (st : MemStorage) (ins : InsertBookmark) :
    MemStorage × Bookmark :=
  let newBookmark : Bookmark :=
    { id := st.currentBookmarkId
      verseId := ins.verseId
      userId := match ins.userId with
        | none => "default"
        | some u => if u = "" then "default" else u }
  ({ st with
      currentBookmarkId := st.currentBookmarkId + 1
      bookmarksList := MapL.set st.bookmarksList newBookmark.id newBookmark },
   newBookmark)

/-- `deleteBookmark` (`storage.ts:242-249`). -/
def deleteBookmark (st : MemStorage) (verseId : String) (userId : Option String) :
    MemStorage :=
  let uid := userId.getD "default"
  match List.find? (fun b => b.verseId = verseId && b.userId = uid)
      (MapL.values st.bookmarksList) with
  | some b => { st with bookmarksList := MapL.del st.bookmarksList b.id }
  | none => st

/-! ## The Bible corpus loader (`storage.ts:57-133`) -/

/-- One value of the `bibleData.verses` mapping (see §6 of the spec and
`storage.ts:66-96`): numeric book ordinal, display name, chapter, verse,
text. -/
structure RawVerse where
  book : Nat
  book_name : String
  chapter : Nat
  verse : Nat
  text : String
deriving DecidableEq, Repr

/-- One iteration of the `forEach` in `initializeBibleData`
(`storage.ts:66-98`).  `data` is the full entry list (the inner
`maxChapter` scan ranges over all of it); the accumulator carries the
store and the local `bookMap` keyed by book name. -/
def loadStep (data : List RawVerse) (acc : MemStorage × MapL String BibleBook)
    (rv : RawVerse) : MemStorage × MapL String BibleBook :=
  let st := acc.1
  let bookMap := acc.2
  let next : MemStorage × MapL String BibleBook :=
    if MapL.has bookMap rv.book_name then (st, bookMap)
    else
      let testament := if rv.book ≤ 39 then "Old" else "New"
      let maxChapter := List.foldl (fun m v => max m v.chapter) 0
        (List.filter (fun v => v.book_name = rv.book_name) data)
      let newBook : BibleBook :=
        { id := st.currentBookId
          name := rv.book_name
          testament := testament
          chapters := maxChapter
          order := rv.book }
      ({ st with
          currentBookId := st.currentBookId + 1
          books := MapL.set st.books newBook.id newBook },
       MapL.set bookMap rv.book_name newBook)
  let st := next.1
  let newVerse : BibleVerse :=
    { id := st.currentVerseId
      book := rv.book_name
      chapter := rv.chapter
      verse := rv.verse
      text := rv.text }
  let key := verseKey rv.book_name rv.chapter rv.verse
  ({ st with
      currentVerseId := st.currentVerseId + 1
      verses := MapL.set st.verses key newVerse },
   next.2)

/-- `initializeBibleData` (`storage.ts:57-106`), success path: fold the
dataset entries through `loadStep` starting from the fresh store. -/
def initBibleData (data : List RawVerse) : MemStorage :=
  (List.foldl (loadStep data) (emptyStorage, []) data).1

/-- `initializeSampleData` (`storage.ts:108-133`): the fallback used when
the dataset cannot be read or parsed. -/
def initSampleData : MemStorage :=
  let st := emptyStorage
  let b1 : BibleBook :=
    { id := 1, name := "Genesis", testament := "Old", chapters := 50, order := 1 }
  let b2 : BibleBook :=
    { id := 2, name := "Matthew", testament := "New", chapters := 28, order := 40 }
  let b3 : BibleBook :=
    { id := 3, name := "John", testament := "New", chapters := 21, order := 43 }
  let st := { st with
    currentBookId := 4
    books := MapL.set (MapL.set (MapL.set st.books 1 b1) 2 b2) 3 b3 }
  let v1 : BibleVerse :=
    { id := 1, book := "Genesis", chapter := 1, verse := 1,
      text := "In the beginning God created the heavens and the earth." }
  let v2 : BibleVerse :=
    { id := 2, book := "Matthew", chapter := 5, verse := 3,
      text := "Blessed are the poor in spirit, for theirs is the kingdom of heaven." }
  let v3 : BibleVerse :=
    { id := 3, book := "John", chapter := 3, verse := 16,
      text := "For God so loved the world that he gave his one and only Son, that whoever believes in him shall not perish but have eternal life." }
  { st with
    currentVerseId := 4
    verses :=
      MapL.set (MapL.set (MapL.set st.verses
        (verseKey "Genesis" 1 1) v1) (verseKey "Matthew" 5 3) v2)
        (verseKey "John" 3 16) v3 }

/-! ## Interleavable delete operations (for the id-monotonicity claim) -/

/-- A delete operation on the mutable containers. -/
inductive DelOp where
  | delHighlight (verseId : String) (userId : Option String)
  | delBookmark (verseId : String) (userId : Option String)

/-- Apply one delete operation. -/
def applyDel (st : MemStorage) : DelOp → MemStorage
  | DelOp.delHighlight vid uid => deleteHighlight st vid uid
  | DelOp.delBookmark vid uid => deleteBookmark st vid uid

/-- Apply a sequence of delete operations in order. -/
def applyDels (ops : List DelOp) (st : MemStorage) : MemStorage :=
  List.foldl applyDel st ops

/-- A concrete reachable state with one highlight and one bookmark, used
to evaluate the delete operations on concrete inputs. -/
def demoStore : MemStorage :=
  (createBookmark
    (createHighlight initSampleData ⟨"John:3:16", "yellow", none⟩).1
    ⟨"Genesis:1:1", none⟩).1

/-! ## Helper lemmas -/

theorem deleteHighlight_cases (st : MemStorage) (vid : String) (uid : Option String) :
    deleteHighlight st vid uid = st ∨
    ∃ h, List.find? (fun h => h.verseId = vid && h.userId = uid.getD "default")
        (MapL.values st.highlightsList) = some h ∧
      deleteHighlight st vid uid =
        { st with highlightsList := MapL.del st.highlightsList h.id } := by
  simp only [deleteHighlight]
  split
  · rename_i h hf
    exact Or.inr ⟨h, hf, rfl⟩
  · exact Or.inl rfl

theorem deleteBookmark_cases (st : MemStorage) (vid : String) (uid : Option String) :
    deleteBookmark st vid uid = st ∨
    ∃ b, List.find? (fun b => b.verseId = vid && b.userId = uid.getD "default")
        (MapL.values st.bookmarksList) = some b ∧
      deleteBookmark st vid uid =
        { st with bookmarksList := MapL.del st.bookmarksList b.id } := by
  simp only [deleteBookmark]
  split
  · rename_i b hf
    exact Or.inr ⟨b, hf, rfl⟩
  · exact Or.inl rfl

/-! ## C10: highlight/bookmark operations do not touch the other containers -/

/-- C10.  Frame property: `createHighlight`, `deleteHighlight`,
`createBookmark` and `deleteBookmark` leave the books container, the
verses container and the other entity kind's container unchanged. -/
theorem mutatingOps_frame (st : MemStorage) (ih : InsertHighlight)
    (ib : InsertBookmark) (vid : String) (uid : Option String) :
    ((createHighlight st ih).1.books = st.books ∧
     (createHighlight st ih).1.verses = st.verses ∧
     (createHighlight st ih).1.bookmarksList = st.bookmarksList) ∧
    ((deleteHighlight st vid uid).books = st.books ∧
     (deleteHighlight st vid uid).verses = st.verses ∧
     (deleteHighlight st vid uid).bookmarksList = st.bookmarksList) ∧
    ((createBookmark st ib).1.books = st.books ∧
     (createBookmark st ib).1.verses = st.verses ∧
     (createBookmark st ib).1.highlightsList = st.highlightsList) ∧
    ((deleteBookmark st vid uid).books = st.books ∧
     (deleteBookmark st vid uid).verses = st.verses ∧
     (deleteBookmark st vid uid).highlightsList = st.highlightsList) := by
  refine ⟨⟨rfl, rfl, rfl⟩, ?_, ⟨rfl, rfl, rfl⟩, ?_⟩
  · rcases deleteHighlight_cases st vid uid with h | ⟨x, _, h⟩ <;>
      rw [h] <;> exact ⟨rfl, rfl, rfl⟩
  · rcases deleteBookmark_cases st vid uid with h | ⟨x, _, h⟩ <;>
      rw [h] <;> exact ⟨rfl, rfl, rfl⟩

/-! ## C8: sequential id assignment survives interleaved deletes -/

theorem applyDel_counters (st : MemStorage) (op : DelOp) :
    (applyDel st op).currentHighlightId = st.currentHighlightId ∧
    (applyDel st op).currentBookmarkId = st.currentBookmarkId := by
  cases op with
  | delHighlight vid uid =>
    rcases deleteHighlight_cases st vid uid with h | ⟨x, _, h⟩ <;>
      simp [applyDel, h]
  | delBookmark vid uid =>
    rcases deleteBookmark_cases st vid uid with h | ⟨x, _, h⟩ <;>
      simp [applyDel, h]

theorem applyDels_counters (ops : List DelOp) :
    ∀ st : MemStorage,
      (applyDels ops st).currentHighlightId = st.currentHighlightId ∧
      (applyDels ops st).currentBookmarkId = st.currentBookmarkId := by
  induction ops with
  | nil => exact fun st => ⟨rfl, rfl⟩
  | cons op ops ih =>
    intro st
    have h1 := applyDel_counters st op
    have h2 := ih (applyDel st op)
    exact ⟨h2.1.trans h1.1, h2.2.trans h1.2⟩

/-- C8.  Two creations of the same entity kind, with any sequence of
delete operations interleaved between them, receive strictly increasing
(hence distinct, never reused) ids from the per-kind counter. -/
theorem createIds_monotone (st : MemStorage) (ops : List DelOp)
    (ih1 ih2 : InsertHighlight) (ib1 ib2 : InsertBookmark) :
    (createHighlight st ih1).2.id <
      (createHighlight (applyDels ops (createHighlight st ih1).1) ih2).2.id ∧
    (createBookmark st ib1).2.id <
      (createBookmark (applyDels ops (createBookmark st ib1).1) ib2).2.id := by
  constructor
  · have h := (applyDels_counters ops (createHighlight st ih1).1).1
    show st.currentHighlightId <
      (applyDels ops (createHighlight st ih1).1).currentHighlightId
    rw [h]
    exact Nat.lt_succ_self _
  · have h := (applyDels_counters ops (createBookmark st ib1).1).2
    show st.currentBookmarkId <
      (applyDels ops (createBookmark st ib1).1).currentBookmarkId
    rw [h]
    exact Nat.lt_succ_self _

theorem head?_filter_eq_find? {α : Type} (p : α → Bool) :
    ∀ l : List α, (List.filter p l).head? = List.find? p l := by
  intro l
  induction l with
  | nil => rfl
  | cons a l ih =>
    by_cases h : p a = true
    · simp [List.filter_cons, List.find?_cons, h]
    · simp only [List.filter_cons, List.find?_cons]
      rw [if_neg h]
      cases hpa : p a with
      | false => exact ih
      | true => exact absurd hpa h

/-! ## C1: the verse-reference branch of searchVerses -/

/-- C1.  When the normalized query matches the verse-reference pattern
with captured book-name `bn`, chapter `c` and verse `v`, `searchVerses`
returns a single verse whose lower-cased book contains the cleaned
book-name and whose chapter and verse equal the parsed numbers, or the
empty list when no stored verse qualifies; the result never comes from the
book-name or full-text branches (it has at most one element, characterized
purely by the reference predicate). -/
theorem searchVerses_refBranch (st : MemStorage) (q : String) (bn : List Char)
    (c v : Nat)
    (href : verseRefParse (jsTrim (lowerList q)) = some (bn, c, v)) :
    (∃ w, searchVerses st q = [w] ∧ w ∈ MapL.values st.verses ∧
      jsIncludes (lowerList w.book) (List.map Char.toLower (jsTrim bn)) = true ∧
      w.chapter = c ∧ w.verse = v) ∨
    (searchVerses st q = [] ∧ ∀ w ∈ MapL.values st.verses,
      ¬(jsIncludes (lowerList w.book) (List.map Char.toLower (jsTrim bn)) = true ∧
        w.chapter = c ∧ w.verse = v)) := by
  simp only [searchVerses, href]
  cases hf : List.find? (fun w =>
      jsIncludes (lowerList w.book) (List.map Char.toLower (jsTrim bn)) &&
      w.chapter = c && w.verse = v) (MapL.values st.verses) with
  | some w =>
    left
    have hp := List.find?_some hf
    simp only [Bool.and_eq_true, decide_eq_true_eq] at hp
    exact ⟨w, rfl, List.mem_of_find?_eq_some hf, hp.1.1, hp.1.2, hp.2⟩
  | none =>
    right
    refine ⟨rfl, fun w hw hcontra => ?_⟩
    have := List.find?_eq_none.mp hf w hw
    simp only [Bool.and_eq_true, decide_eq_true_eq] at this
    exact this ⟨⟨hcontra.1, hcontra.2.1⟩, hcontra.2.2⟩

/-! ## C2: the book-name branch of searchVerses -/

/-- C2.  When the normalized query matches no verse reference, some
verse's lower-cased book contains it, and its length exceeds 2,
`searchVerses` returns at most 10 verses, each stored in chapter 1 of the
book of the first matching verse, as a sublist (insertion order, no
re-sorting) of the stored verses. -/
theorem searchVerses_bookBranch (st : MemStorage) (q : String)
    (first : BibleVerse)
    (href : verseRefParse (jsTrim (lowerList q)) = none)
    (hfind : List.find? (fun w => jsIncludes (lowerList w.book) (jsTrim (lowerList q)))
        (MapL.values st.verses) = some first)
    (hlen : 2 < (jsTrim (lowerList q)).length) :
    (searchVerses st q).length ≤ 10 ∧
    (∀ w ∈ searchVerses st q, w ∈ MapL.values st.verses ∧
      w.book = first.book ∧ w.chapter = 1) ∧
    (searchVerses st q).Sublist (MapL.values st.verses) := by
  have hhead := head?_filter_eq_find?
    (fun w => jsIncludes (lowerList w.book) (jsTrim (lowerList q)))
    (MapL.values st.verses)
  rw [hfind] at hhead
  obtain ⟨tail, hfilter⟩ : ∃ tail,
      List.filter (fun w => jsIncludes (lowerList w.book) (jsTrim (lowerList q)))
        (MapL.values st.verses) = first :: tail := by
    cases hfl : List.filter (fun w => jsIncludes (lowerList w.book) (jsTrim (lowerList q)))
        (MapL.values st.verses) with
    | nil => rw [hfl] at hhead; exact absurd hhead (by simp)
    | cons a t =>
      rw [hfl] at hhead
      simp only [List.head?_cons, Option.some.injEq] at hhead
      exact ⟨t, by rw [hhead]⟩
  simp only [searchVerses, href, hfilter]
  rw [if_pos ⟨by simp, hlen⟩]
  refine ⟨List.length_take_le 10 _, fun w hw => ?_, ?_⟩
  · have hw2 := List.mem_of_mem_take hw
    have := List.mem_filter.mp hw2
    simp only [Bool.and_eq_true, decide_eq_true_eq] at this
    exact ⟨this.1, this.2.1, this.2.2⟩
  · exact (List.take_sublist 10 _).trans (List.filter_sublist _)

/-! ## C3: the full-text fallback of searchVerses -/

/-- C3.  When the normalized query matches no verse reference and the
book-name branch is not taken (no verse's book contains the query, or the
query has length at most 2), `searchVerses` returns exactly the verses
whose lower-cased text or lower-cased book contains the query, in
insertion order, unbounded. -/
theorem searchVerses_fulltext (st : MemStorage) (q : String)
    (href : verseRefParse (jsTrim (lowerList q)) = none)
    (hnb : (∀ w ∈ MapL.values st.verses,
        ¬ jsIncludes (lowerList w.book) (jsTrim (lowerList q)) = true) ∨
      (jsTrim (lowerList q)).length ≤ 2) :
    searchVerses st q = List.filter (fun w =>
      jsIncludes (lowerList w.text) (jsTrim (lowerList q)) ||
      jsIncludes (lowerList w.book) (jsTrim (lowerList q))) (MapL.values st.verses) := by
  have hcond : ¬(0 < (List.filter (fun w =>
      jsIncludes (lowerList w.book) (jsTrim (lowerList q)))
        (MapL.values st.verses)).length ∧ 2 < (jsTrim (lowerList q)).length) := by
    rintro ⟨h1, h2⟩
    rcases hnb with h | h
    · obtain ⟨w, hw⟩ := List.exists_mem_of_length_pos h1
      obtain ⟨hw1, hw2⟩ := List.mem_filter.mp hw
      exact h w hw1 hw2
    · omega
  simp only [searchVerses, href]
  rw [if_neg hcond]

/-- Witness for C1 at the store loaded with the fallback sample data and
the query "John 3:16". -/
theorem searchVerses_refBranch_witness :
    verseRefParse (jsTrim (lowerList "John 3:16")) =
      some (['j', 'o', 'h', 'n', ' '], 3, 16) ∧
    ((∃ w, searchVerses initSampleData "John 3:16" = [w] ∧
      w ∈ MapL.values initSampleData.verses ∧
      jsIncludes (lowerList w.book)
        (List.map Char.toLower (jsTrim ['j', 'o', 'h', 'n', ' '])) = true ∧
      w.chapter = 3 ∧ w.verse = 16) ∨
    (searchVerses initSampleData "John 3:16" = [] ∧
      ∀ w ∈ MapL.values initSampleData.verses,
      ¬(jsIncludes (lowerList w.book)
          (List.map Char.toLower (jsTrim ['j', 'o', 'h', 'n', ' '])) = true ∧
        w.chapter = 3 ∧ w.verse = 16))) :=
  ⟨by decide,
   searchVerses_refBranch initSampleData "John 3:16" ['j', 'o', 'h', 'n', ' '] 3 16
     (by decide)⟩

/-- Witness for C2 at the sample-data store and the query "genesis". -/
theorem searchVerses_bookBranch_witness :
    verseRefParse (jsTrim (lowerList "genesis")) = none ∧
    List.find? (fun w => jsIncludes (lowerList w.book) (jsTrim (lowerList "genesis")))
      (MapL.values initSampleData.verses) =
      some { id := 1, book := "Genesis", chapter := 1, verse := 1,
             text := "In the beginning God created the heavens and the earth." } ∧
    2 < (jsTrim (lowerList "genesis")).length ∧
    ((searchVerses initSampleData "genesis").length ≤ 10 ∧
     (∀ w ∈ searchVerses initSampleData "genesis",
        w ∈ MapL.values initSampleData.verses ∧
        w.book = "Genesis" ∧ w.chapter = 1) ∧
     (searchVerses initSampleData "genesis").Sublist
       (MapL.values initSampleData.verses)) :=
  ⟨by decide, by decide, by decide,
   searchVerses_bookBranch initSampleData "genesis"
     { id := 1, book := "Genesis", chapter := 1, verse := 1,
       text := "In the beginning God created the heavens and the earth." }
     (by decide) (by decide) (by decide)⟩

/-- Witness for C3 at the sample-data store and the query "love". -/
theorem searchVerses_fulltext_witness :
    verseRefParse (jsTrim (lowerList "love")) = none ∧
    (∀ w ∈ MapL.values initSampleData.verses,
      ¬ jsIncludes (lowerList w.book) (jsTrim (lowerList "love")) = true) ∧
    searchVerses initSampleData "love" = List.filter (fun w =>
      jsIncludes (lowerList w.text) (jsTrim (lowerList "love")) ||
      jsIncludes (lowerList w.book) (jsTrim (lowerList "love")))
      (MapL.values initSampleData.verses) :=
  ⟨by decide, by decide,
   searchVerses_fulltext initSampleData "love" (by decide) (Or.inl (by decide))⟩

/-! ## C5: getVersesByBook filters exactly and sorts by verse -/

/-- C5.  `getVersesByBook` returns only stored verses whose `book` equals
the argument exactly (and whose `chapter` equals the optional chapter when
one at least 1 is supplied), sorted ascending by verse number. -/
theorem getVersesByBook_spec (st : MemStorage) (book : String)
    (chapter : Option Nat) (hc : ∀ c ∈ chapter, 1 ≤ c) :
    (∀ w ∈ getVersesByBook st book chapter,
      w ∈ MapL.values st.verses ∧ w.book = book ∧ ∀ c ∈ chapter, w.chapter = c) ∧
    List.Pairwise (fun a b => a.verse ≤ b.verse) (getVersesByBook st book chapter) := by
  constructor
  · intro w hw
    simp only [getVersesByBook] at hw
    rw [(List.mergeSort_perm _ _).mem_iff] at hw
    obtain ⟨hmem, hpred⟩ := List.mem_filter.mp hw
    have hbook : w.book = book := by
      by_contra hb
      rw [if_pos hb] at hpred
      exact Bool.false_ne_true hpred
    refine ⟨hmem, hbook, fun c hcc => ?_⟩
    have hco : chapter = some c := Option.mem_def.mp hcc
    rw [if_neg (not_not_intro hbook), hco] at hpred
    by_contra hch
    have hcz : c ≠ 0 := by
      have := hc c hcc
      omega
    rw [if_pos (by simp [hcz, hch])] at hpred
    exact Bool.false_ne_true hpred
  · simp only [getVersesByBook]
    have hs := @List.sorted_mergeSort BibleVerse
      (fun a b => decide (a.verse ≤ b.verse))
      (fun a b c hab hbc => by
        simp only [decide_eq_true_eq] at hab hbc ⊢
        omega)
      (fun a b => by
        simp only [Bool.or_eq_true, decide_eq_true_eq]
        omega)
    exact (hs _).imp (fun hab => of_decide_eq_true hab)

/-- Witness for C5 at the sample-data store, book "Genesis", chapter 1. -/
theorem getVersesByBook_spec_witness :
    (∀ c ∈ (some 1 : Option Nat), 1 ≤ c) ∧
    ((∀ w ∈ getVersesByBook initSampleData "Genesis" (some 1),
      w ∈ MapL.values initSampleData.verses ∧ w.book = "Genesis" ∧
      ∀ c ∈ (some 1 : Option Nat), w.chapter = c) ∧
    List.Pairwise (fun a b => a.verse ≤ b.verse)
      (getVersesByBook initSampleData "Genesis" (some 1))) :=
  ⟨by decide, getVersesByBook_spec initSampleData "Genesis" (some 1) (by decide)⟩

theorem MapL.set_fresh {α β : Type} [DecidableEq α] (m : MapL α β) (k : α)
    (v : β) (h : ∀ p ∈ m, p.1 ≠ k) : MapL.set m k v = m ++ [(k, v)] := by
  unfold MapL.set
  rw [if_neg]
  simp only [List.any_eq_true, decide_eq_true_eq, not_exists, not_and]
  exact fun p hp => h p hp

theorem MapL.values_append {α β : Type} (m1 m2 : MapL α β) :
    MapL.values (m1 ++ m2) = MapL.values m1 ++ MapL.values m2 :=
  List.map_append _ _ _

theorem deleteHighlight_unfold (st : MemStorage) (vid : String)
    (uid : Option String) : deleteHighlight st vid uid =
    (match List.find? (fun h => h.verseId = vid && h.userId = uid.getD "default")
        (MapL.values st.highlightsList) with
     | some h => { st with highlightsList := MapL.del st.highlightsList h.id }
     | none => st) := rfl

theorem deleteBookmark_unfold (st : MemStorage) (vid : String)
    (uid : Option String) : deleteBookmark st vid uid =
    (match List.find? (fun b => b.verseId = vid && b.userId = uid.getD "default")
        (MapL.values st.bookmarksList) with
     | some b => { st with bookmarksList := MapL.del st.bookmarksList b.id }
     | none => st) := rfl

/-! ## C6: highlight create/get/delete round trip -/

/-- C6.  From any state whose highlight entries are well-keyed with ids
below the counter and which holds no highlight for verse "John:3:16" and
user "default": after `createHighlight {verseId := "John:3:16", color :=
"yellow"}` (no userId), `getHighlights()` includes the created highlight
and its userId is "default"; after a subsequent
`deleteHighlight("John:3:16")`, `getHighlights()` includes no highlight
with that verseId. -/
theorem highlight_roundtrip (st : MemStorage)
    (hwf : ∀ p ∈ st.highlightsList, p.1 = p.2.id ∧ p.2.id < st.currentHighlightId)
    (hfresh : ∀ h ∈ MapL.values st.highlightsList,
      ¬(h.verseId = "John:3:16" ∧ h.userId = "default")) :
    (createHighlight st ⟨"John:3:16", "yellow", none⟩).2 ∈
      getHighlights (createHighlight st ⟨"John:3:16", "yellow", none⟩).1 none ∧
    (createHighlight st ⟨"John:3:16", "yellow", none⟩).2.userId = "default" ∧
    ∀ g ∈ getHighlights
        (deleteHighlight (createHighlight st ⟨"John:3:16", "yellow", none⟩).1
          "John:3:16" none) none,
      g.verseId ≠ "John:3:16" := by
  have hkfresh : ∀ p ∈ st.highlightsList, p.1 ≠ st.currentHighlightId := by
    intro p hp
    have h := hwf p hp
    rw [h.1]
    exact Nat.ne_of_lt h.2
  have hset : MapL.set st.highlightsList st.currentHighlightId
      { id := st.currentHighlightId, verseId := "John:3:16", color := "yellow",
        userId := "default" } =
      st.highlightsList ++ [(st.currentHighlightId,
      { id := st.currentHighlightId, verseId := "John:3:16", color := "yellow",
        userId := "default" })] := MapL.set_fresh _ _ _ hkfresh
  simp only [createHighlight]
  rw [hset]
  have hnomatch : List.find? (fun h => h.verseId = "John:3:16" && h.userId = "default")
      (MapL.values st.highlightsList) = none := by
    rw [List.find?_eq_none]
    intro h hh
    simp only [Bool.and_eq_true, decide_eq_true_eq]
    intro hcontra
    exact hfresh h hh hcontra
  refine ⟨?_, by trivial, ?_⟩
  · simp only [getHighlights, Option.getD_none]
    rw [MapL.values_append]
    refine List.mem_filter.mpr ⟨List.mem_append_right _ (List.mem_singleton.mpr rfl), ?_⟩
    rfl
  · rw [deleteHighlight_unfold]
    simp only [Option.getD_none]
    rw [MapL.values_append, List.find?_append, hnomatch, Option.none_or]
    have hfind1 : List.find?
        (fun h => h.verseId = "John:3:16" && h.userId = "default")
        (MapL.values [(st.currentHighlightId,
          ({ id := st.currentHighlightId, verseId := "John:3:16",
             color := "yellow", userId := "default" } : Highlight))]) =
        some { id := st.currentHighlightId, verseId := "John:3:16",
               color := "yellow", userId := "default" } := rfl
    rw [hfind1]
    simp only []
    have hdel : MapL.del (st.highlightsList ++ [(st.currentHighlightId,
        { id := st.currentHighlightId, verseId := "John:3:16", color := "yellow",
          userId := "default" })]) st.currentHighlightId = st.highlightsList := by
      unfold MapL.del
      rw [List.eraseP_append_right]
      · simp
      · intro p hp
        simp only [decide_eq_true_eq]
        exact hkfresh p hp
    intro g hg
    simp only [getHighlights, Option.getD_none] at hg
    rw [hdel] at hg
    obtain ⟨hg1, hg2⟩ := List.mem_filter.mp hg
    simp only [decide_eq_true_eq] at hg2
    intro hveq
    exact hfresh g hg1 ⟨hveq, hg2⟩

/-- Witness for C6 at the sample-data store (which has no highlights). -/
theorem highlight_roundtrip_witness :
    (∀ p ∈ initSampleData.highlightsList,
      p.1 = p.2.id ∧ p.2.id < initSampleData.currentHighlightId) ∧
    (∀ h ∈ MapL.values initSampleData.highlightsList,
      ¬(h.verseId = "John:3:16" ∧ h.userId = "default")) ∧
    ((createHighlight initSampleData ⟨"John:3:16", "yellow", none⟩).2 ∈
      getHighlights (createHighlight initSampleData ⟨"John:3:16", "yellow", none⟩).1 none ∧
    (createHighlight initSampleData ⟨"John:3:16", "yellow", none⟩).2.userId = "default" ∧
    ∀ g ∈ getHighlights
        (deleteHighlight (createHighlight initSampleData ⟨"John:3:16", "yellow", none⟩).1
          "John:3:16" none) none,
      g.verseId ≠ "John:3:16") :=
  ⟨by decide, by decide,
   highlight_roundtrip initSampleData (by decide) (by decide)⟩

theorem values_del_find {β : Type} (idOf : β → Nat) (p : β → Bool) :
    ∀ (entries : List (Nat × β)) (h : β),
      (∀ e ∈ entries, e.1 = idOf e.2) →
      (List.map Prod.fst entries).Nodup →
      List.find? p (MapL.values entries) = some h →
      MapL.values (MapL.del entries (idOf h)) =
        List.eraseP p (MapL.values entries) := by
  intro entries
  induction entries with
  | nil =>
    intro h _ _ hfind
    exact absurd hfind (by simp [MapL.values])
  | cons e es ih =>
    intro h hkeys hnodup hfind
    have hvals : MapL.values (e :: es) = e.2 :: MapL.values es := rfl
    cases hpe : p e.2 with
    | true =>
      have hh : h = e.2 := by
        rw [hvals, List.find?_cons_of_pos _ hpe] at hfind
        exact (Option.some_inj.mp hfind).symm
      subst hh
      have hkey : e.1 = idOf e.2 := hkeys e (List.mem_cons_self e es)
      unfold MapL.del
      rw [List.eraseP_cons, hvals, List.eraseP_cons, hpe]
      simp only [hkey, decide_True, cond_true]
    | false =>
      have hfind2 : List.find? p (MapL.values es) = some h := by
        rw [hvals, List.find?_cons_of_neg _ (by simp [hpe])] at hfind
        exact hfind
      have hmem : h ∈ MapL.values es := List.mem_of_find?_eq_some hfind2
      have hkey_ne : (e.1 = idOf h) = False := by
        apply eq_false
        intro heq
        obtain ⟨e', he', he'2⟩ := List.mem_map.mp hmem
        have he'key : e'.1 = idOf h := by rw [hkeys e' (List.mem_cons_of_mem e he'), he'2]
        have : e.1 ∈ List.map Prod.fst es :=
          List.mem_map.mpr ⟨e', he', by rw [he'key, heq]⟩
        exact (List.nodup_cons.mp hnodup).1 this
      unfold MapL.del
      rw [List.eraseP_cons, hvals, List.eraseP_cons, hpe]
      simp only [hkey_ne, decide_False, cond_false]
      have htail := ih h (fun e' he' => hkeys e' (List.mem_cons_of_mem e he'))
        (List.nodup_cons.mp hnodup).2 hfind2
      unfold MapL.del at htail
      calc MapL.values (e :: List.eraseP (fun q => decide (q.1 = idOf h)) es)
          = e.2 :: MapL.values (List.eraseP (fun q => decide (q.1 = idOf h)) es) := rfl
        _ = e.2 :: List.eraseP p (MapL.values es) := by rw [htail]

/-! ## C7: delete is a silent no-op or removes exactly the first match -/

/-- C7.  For any state and pair (verseId, userId): when no highlight
(resp. bookmark) matches, the delete operation returns the state
unchanged (no error, collections untouched); and on a well-keyed
collection (entry key = entity id, keys distinct) the delete operation
removes exactly the first matching entity from the values, i.e. the
resulting values are `eraseP` of the original values. -/
theorem delete_noop_and_first (st : MemStorage) (vid : String)
    (userId : Option String) :
    ((∀ h ∈ MapL.values st.highlightsList,
        ¬(h.verseId = vid ∧ h.userId = userId.getD "default")) →
      deleteHighlight st vid userId = st) ∧
    ((∀ b ∈ MapL.values st.bookmarksList,
        ¬(b.verseId = vid ∧ b.userId = userId.getD "default")) →
      deleteBookmark st vid userId = st) ∧
    ((∀ p ∈ st.highlightsList, p.1 = p.2.id) →
      (List.map Prod.fst st.highlightsList).Nodup →
      MapL.values (deleteHighlight st vid userId).highlightsList =
        List.eraseP (fun h => h.verseId = vid && h.userId = userId.getD "default")
          (MapL.values st.highlightsList)) ∧
    ((∀ p ∈ st.bookmarksList, p.1 = p.2.id) →
      (List.map Prod.fst st.bookmarksList).Nodup →
      MapL.values (deleteBookmark st vid userId).bookmarksList =
        List.eraseP (fun b => b.verseId = vid && b.userId = userId.getD "default")
          (MapL.values st.bookmarksList)) := by
  refine ⟨?_, ?_, ?_, ?_⟩
  · intro hfresh
    rw [deleteHighlight_unfold]
    have hnone : List.find? (fun h => h.verseId = vid && h.userId = userId.getD "default")
        (MapL.values st.highlightsList) = none := by
      rw [List.find?_eq_none]
      intro h hh
      simp only [Bool.and_eq_true, decide_eq_true_eq]
      exact fun hc => hfresh h hh hc
    rw [hnone]
  · intro hfresh
    rw [deleteBookmark_unfold]
    have hnone : List.find? (fun b => b.verseId = vid && b.userId = userId.getD "default")
        (MapL.values st.bookmarksList) = none := by
      rw [List.find?_eq_none]
      intro b hb
      simp only [Bool.and_eq_true, decide_eq_true_eq]
      exact fun hc => hfresh b hb hc
    rw [hnone]
  · intro hkeys hnodup
    rw [deleteHighlight_unfold]
    cases hf : List.find? (fun h => h.verseId = vid && h.userId = userId.getD "default")
        (MapL.values st.highlightsList) with
    | none =>
      rw [List.eraseP_of_forall_not (List.find?_eq_none.mp hf)]
    | some h =>
      exact values_del_find Highlight.id _ st.highlightsList h hkeys hnodup hf
  · intro hkeys hnodup
    rw [deleteBookmark_unfold]
    cases hf : List.find? (fun b => b.verseId = vid && b.userId = userId.getD "default")
        (MapL.values st.bookmarksList) with
    | none =>
      rw [List.eraseP_of_forall_not (List.find?_eq_none.mp hf)]
    | some b =>
      exact values_del_find Bookmark.id _ st.bookmarksList b hkeys hnodup hf

/-- Witness for C7 on `demoStore`: deleting a never-existing pair is a
no-op for both kinds, and deleting an existing pair removes exactly the
first match. -/
theorem delete_noop_and_first_witness :
    (deleteHighlight demoStore "nope" none = demoStore) ∧
    (deleteBookmark demoStore "nope" none = demoStore) ∧
    (MapL.values (deleteHighlight demoStore "John:3:16" none).highlightsList =
      List.eraseP (fun h => h.verseId = "John:3:16" && h.userId = "default")
        (MapL.values demoStore.highlightsList)) ∧
    (MapL.values (deleteBookmark demoStore "Genesis:1:1" none).bookmarksList =
      List.eraseP (fun b => b.verseId = "Genesis:1:1" && b.userId = "default")
        (MapL.values demoStore.bookmarksList)) :=
  ⟨(delete_noop_and_first demoStore "nope" none).1 (by decide),
   (delete_noop_and_first demoStore "nope" none).2.1 (by decide),
   (delete_noop_and_first demoStore "John:3:16" none).2.2.1 (by decide) (by decide),
   (delete_noop_and_first demoStore "Genesis:1:1" none).2.2.2 (by decide) (by decide)⟩

/-! ## Decimal rendering and composite-key injectivity -/

theorem digitChar_toNat_sub : ∀ d, d < 10 → (Nat.digitChar d).toNat - 48 = d := by
  decide

theorem digitChar_ne_colon : ∀ d, d < 10 → Nat.digitChar d ≠ ':' := by
  decide

theorem digitChar_inj_lt10 : ∀ a, a < 10 → ∀ b, b < 10 →
    Nat.digitChar a = Nat.digitChar b → a = b := by
  decide

theorem decDigitsLE_lt10 : ∀ (fuel n d : Nat), d ∈ decDigitsLE fuel n → d < 10 := by
  intro fuel
  induction fuel with
  | zero => intro n d hd; exact absurd hd (by simp [decDigitsLE])
  | succ f ih =>
    intro n d hd
    rw [decDigitsLE] at hd
    by_cases h : n < 10
    · rw [if_pos h] at hd
      rw [List.mem_singleton.mp hd]
      exact h
    · rw [if_neg h] at hd
      rcases List.mem_cons.mp hd with hd | hd
      · rw [hd]; exact Nat.mod_lt _ (by norm_num)
      · exact ih _ _ hd

theorem decDigitsLE_foldr : ∀ (fuel n : Nat), n < fuel →
    List.foldr (fun d a => 10 * a + d) 0 (decDigitsLE fuel n) = n := by
  intro fuel
  induction fuel with
  | zero => intro n h; omega
  | succ f ih =>
    intro n h
    rw [decDigitsLE]
    by_cases h10 : n < 10
    · rw [if_pos h10]
      simp
    · rw [if_neg h10]
      have hdiv : n / 10 < n := Nat.div_lt_self (by omega) (by norm_num)
      have : List.foldr (fun d a => 10 * a + d) 0 (decDigitsLE f (n / 10)) = n / 10 :=
        ih (n / 10) (by omega)
      simp only [List.foldr_cons, this]
      omega

theorem decDigitsLE_ne_nil (n : Nat) : decDigitsLE (n + 1) n ≠ [] := by
  rw [decDigitsLE]
  by_cases h : n < 10
  · rw [if_pos h]; simp
  · rw [if_neg h]; simp

theorem decVal_natToDec (n : Nat) : decVal (natToDec n) = n := by
  show List.foldl (fun a c => 10 * a + (c.toNat - 48)) 0
    (List.reverse (List.map Nat.digitChar (decDigitsLE (n + 1) n))) = n
  rw [List.foldl_reverse, List.foldr_map]
  have hbound := decDigitsLE_lt10 (n + 1) n
  have : ∀ (l : List Nat), (∀ d ∈ l, d < 10) →
      List.foldr (fun d a => 10 * a + ((Nat.digitChar d).toNat - 48)) 0 l =
      List.foldr (fun d a => 10 * a + d) 0 l := by
    intro l
    induction l with
    | nil => intro _; rfl
    | cons d l ihl =>
      intro hl
      simp only [List.foldr_cons]
      rw [ihl (fun x hx => hl x (List.mem_cons_of_mem d hx)),
        digitChar_toNat_sub d (hl d (List.mem_cons_self d l))]
  rw [this _ hbound]
  exact decDigitsLE_foldr (n + 1) n (Nat.lt_succ_self n)

theorem natToDec_inj {m n : Nat} (h : natToDec m = natToDec n) : m = n := by
  rw [← decVal_natToDec m, ← decVal_natToDec n, h]

theorem natToDec_ne_colon (n : Nat) : ∀ c ∈ natToDec n, c ≠ ':' := by
  intro c hc
  rw [natToDec, List.mem_reverse] at hc
  obtain ⟨d, hd, hdc⟩ := List.mem_map.mp hc
  rw [← hdc]
  exact digitChar_ne_colon d (decDigitsLE_lt10 _ _ d hd)

theorem splitColonFirst :
    ∀ (a : List Char) (y : List Char) (b : List Char) (z : List Char),
      (∀ c ∈ a, c ≠ ':') → (∀ c ∈ b, c ≠ ':') →
      a ++ ':' :: y = b ++ ':' :: z → a = b ∧ y = z := by
  intro a
  induction a with
  | nil =>
    intro y b z _ hb heq
    cases b with
    | nil => exact ⟨rfl, by injection heq⟩
    | cons d bs =>
      exfalso
      have : ':' = d := by injection heq
      exact hb d (List.mem_cons_self d bs) this.symm
  | cons c as ih =>
    intro y b z ha hb heq
    cases b with
    | nil =>
      exfalso
      have : c = ':' := by injection heq
      exact ha c (List.mem_cons_self c as) this
    | cons d bs =>
      have h1 : c = d := by injection heq
      have h2 : as ++ ':' :: y = bs ++ ':' :: z := by injection heq
      obtain ⟨hab, hyz⟩ := ih y bs z
        (fun x hx => ha x (List.mem_cons_of_mem c hx))
        (fun x hx => hb x (List.mem_cons_of_mem d hx)) h2
      exact ⟨by rw [h1, hab], hyz⟩

theorem splitColonLast (u w v x : List Char)
    (hw : ∀ c ∈ w, c ≠ ':') (hx : ∀ c ∈ x, c ≠ ':')
    (heq : u ++ ':' :: w = v ++ ':' :: x) : u = v ∧ w = x := by
  have hrev : w.reverse ++ ':' :: u.reverse = x.reverse ++ ':' :: v.reverse := by
    have := congrArg List.reverse heq
    simp only [List.reverse_append, List.reverse_cons] at this
    simpa [List.append_assoc] using this
  obtain ⟨h1, h2⟩ := splitColonFirst w.reverse u.reverse x.reverse v.reverse
    (fun c hc => hw c (List.mem_reverse.mp hc))
    (fun c hc => hx c (List.mem_reverse.mp hc)) hrev
  exact ⟨List.reverse_inj.mp h2, List.reverse_inj.mp h1⟩

theorem verseKey_inj {b1 b2 : String} {c1 c2 v1 v2 : Nat}
    (h : verseKey b1 c1 v1 = verseKey b2 c2 v2) :
    b1 = b2 ∧ c1 = c2 ∧ v1 = v2 := by
  have h1 : (b1.toList ++ ':' :: natToDec c1) ++ ':' :: natToDec v1 =
      (b2.toList ++ ':' :: natToDec c2) ++ ':' :: natToDec v2 := by
    have := h
    unfold verseKey at this
    simpa [List.append_assoc] using this
  obtain ⟨h2, h3⟩ := splitColonLast _ _ _ _
    (natToDec_ne_colon v1) (natToDec_ne_colon v2) h1
  obtain ⟨h4, h5⟩ := splitColonLast _ _ _ _
    (natToDec_ne_colon c1) (natToDec_ne_colon c2) h2
  refine ⟨?_, natToDec_inj h5, natToDec_inj h3⟩
  exact String.ext h4

/-! ## C4: getVerse is exact composite-key lookup -/

/-- C4.  In any stored state whose verse map is keyed consistently by
"book:chapter:verse" and whose (book, chapter, verse) triples are unique,
`getVerse b c v` (with `c, v ≥ 1`) returns exactly the stored verse with
that triple, and `none` exactly when no such verse exists. -/
theorem getVerse_spec (st : MemStorage)
    (hkeys : ∀ p ∈ st.verses, p.1 = verseKey p.2.book p.2.chapter p.2.verse)
    (huniq : ∀ w ∈ MapL.values st.verses, ∀ w2 ∈ MapL.values st.verses,
      w.book = w2.book → w.chapter = w2.chapter → w.verse = w2.verse → w = w2)
    (book : String) (chapter verse : Nat)
    (hc : 1 ≤ chapter) (hv : 1 ≤ verse) :
    (∀ w, getVerse st book chapter verse = some w →
      w ∈ MapL.values st.verses ∧ w.book = book ∧ w.chapter = chapter ∧
      w.verse = verse ∧
      ∀ w2 ∈ MapL.values st.verses,
        w2.book = book → w2.chapter = chapter → w2.verse = verse → w2 = w) ∧
    (getVerse st book chapter verse = none ↔
      ∀ w ∈ MapL.values st.verses,
        ¬(w.book = book ∧ w.chapter = chapter ∧ w.verse = verse)) := by
  constructor
  · intro w hw
    rw [getVerse, MapL.get, Option.map_eq_some'] at hw
    obtain ⟨p, hfind, hpw⟩ := hw
    have hpmem : p ∈ st.verses := List.mem_of_find?_eq_some hfind
    have hpkey : p.1 = verseKey book chapter verse := by
      have := List.find?_some hfind
      exact of_decide_eq_true this
    have htriple : p.2.book = book ∧ p.2.chapter = chapter ∧ p.2.verse = verse :=
      verseKey_inj ((hkeys p hpmem).symm.trans hpkey)
    have hwmem : w ∈ MapL.values st.verses := by
      rw [← hpw]
      exact List.mem_map.mpr ⟨p, hpmem, rfl⟩
    rw [← hpw]
    refine ⟨List.mem_map.mpr ⟨p, hpmem, rfl⟩, htriple.1, htriple.2.1,
      htriple.2.2, ?_⟩
    intro w2 hw2 hb2 hc2 hv2
    exact huniq w2 hw2 p.2 (hpw ▸ hwmem) (hb2.trans htriple.1.symm)
      (hc2.trans htriple.2.1.symm) (hv2.trans htriple.2.2.symm)
  · rw [getVerse, MapL.get, Option.map_eq_none', List.find?_eq_none]
    constructor
    · intro hnone w hwmem ⟨hb, hc2, hv2⟩
      obtain ⟨p, hpmem, hpw⟩ := List.mem_map.mp hwmem
      apply hnone p hpmem
      have : p.1 = verseKey book chapter verse := by
        rw [hkeys p hpmem, hpw, hb, hc2, hv2]
      exact decide_eq_true this
    · intro hall p hpmem
      simp only [decide_eq_true_eq]
      intro hpkey
      have htriple := verseKey_inj ((hkeys p hpmem).symm.trans hpkey)
      exact hall p.2 (List.mem_map.mpr ⟨p, hpmem, rfl⟩)
        ⟨htriple.1, htriple.2.1, htriple.2.2⟩

/-- Witness for C4 at the sample-data store and the triple
("John", 3, 16). -/
theorem getVerse_spec_witness :
    (∀ p ∈ initSampleData.verses,
      p.1 = verseKey p.2.book p.2.chapter p.2.verse) ∧
    (∀ w ∈ MapL.values initSampleData.verses,
      ∀ w2 ∈ MapL.values initSampleData.verses,
      w.book = w2.book → w.chapter = w2.chapter → w.verse = w2.verse → w = w2) ∧
    ((∀ w, getVerse initSampleData "John" 3 16 = some w →
      w ∈ MapL.values initSampleData.verses ∧ w.book = "John" ∧ w.chapter = 3 ∧
      w.verse = 16 ∧
      ∀ w2 ∈ MapL.values initSampleData.verses,
        w2.book = "John" → w2.chapter = 3 → w2.verse = 16 → w2 = w) ∧
    (getVerse initSampleData "John" 3 16 = none ↔
      ∀ w ∈ MapL.values initSampleData.verses,
        ¬(w.book = "John" ∧ w.chapter = 3 ∧ w.verse = 16))) :=
  ⟨by decide, by decide,
   getVerse_spec initSampleData (by decide) (by decide) "John" 3 16
     (by decide) (by decide)⟩

/-! ## C9: loader book invariants -/

theorem loadStep_seen (data : List RawVerse) (st : MemStorage)
    (bm : MapL String BibleBook) (rv : RawVerse)
    (h : MapL.has bm rv.book_name = true) :
    (loadStep data (st, bm) rv).1.books = st.books ∧
    (loadStep data (st, bm) rv).1.currentBookId = st.currentBookId ∧
    (loadStep data (st, bm) rv).2 = bm := by
  simp only [loadStep]
  rw [if_pos h]
  exact ⟨rfl, rfl, rfl⟩

theorem loadStep_unseen (data : List RawVerse) (st : MemStorage)
    (bm : MapL String BibleBook) (rv : RawVerse)
    (h : MapL.has bm rv.book_name = false) :
    (loadStep data (st, bm) rv).1.books =
      MapL.set st.books st.currentBookId
        { id := st.currentBookId, name := rv.book_name,
          testament := if rv.book ≤ 39 then "Old" else "New",
          chapters := List.foldl (fun m v => max m v.chapter) 0
            (List.filter (fun v => v.book_name = rv.book_name) data),
          order := rv.book } ∧
    (loadStep data (st, bm) rv).1.currentBookId = st.currentBookId + 1 ∧
    (loadStep data (st, bm) rv).2 =
      MapL.set bm rv.book_name
        { id := st.currentBookId, name := rv.book_name,
          testament := if rv.book ≤ 39 then "Old" else "New",
          chapters := List.foldl (fun m v => max m v.chapter) 0
            (List.filter (fun v => v.book_name = rv.book_name) data),
          order := rv.book } := by
  simp only [loadStep]
  rw [if_neg (by simp [h])]
  exact ⟨rfl, rfl, rfl⟩

theorem load_invariant (data : List RawVerse) :
    ∀ (l : List RawVerse) (st : MemStorage) (bm : MapL String BibleBook),
      (∀ rv ∈ l, rv ∈ data) →
      (∀ p ∈ st.books, p.1 = p.2.id ∧ p.2.id < st.currentBookId) →
      (∀ b ∈ MapL.values st.books,
        ((b.testament = "Old" ↔ b.order ≤ 39) ∧
         ∃ rv ∈ data, rv.book_name = b.name ∧ rv.book = b.order)) →
      List.Pairwise (fun b1 b2 => b1.name ≠ b2.name) (MapL.values st.books) →
      (∀ nm, MapL.has bm nm = true ↔ ∃ b ∈ MapL.values st.books, b.name = nm) →
      (∀ p ∈ (List.foldl (loadStep data) (st, bm) l).1.books,
        p.1 = p.2.id ∧
        p.2.id < (List.foldl (loadStep data) (st, bm) l).1.currentBookId) ∧
      (∀ b ∈ MapL.values (List.foldl (loadStep data) (st, bm) l).1.books,
        ((b.testament = "Old" ↔ b.order ≤ 39) ∧
         ∃ rv ∈ data, rv.book_name = b.name ∧ rv.book = b.order)) ∧
      List.Pairwise (fun b1 b2 => b1.name ≠ b2.name)
        (MapL.values (List.foldl (loadStep data) (st, bm) l).1.books) ∧
      (∀ nm, MapL.has (List.foldl (loadStep data) (st, bm) l).2 nm = true ↔
        ∃ b ∈ MapL.values (List.foldl (loadStep data) (st, bm) l).1.books,
          b.name = nm) := by
  intro l
  induction l with
  | nil => exact fun st bm _ h1 h2 h3 h4 => ⟨h1, h2, h3, h4⟩
  | cons rv l ih =>
    intro st bm hl h1 h2 h3 h4
    rw [List.foldl_cons]
    have hl2 : ∀ x ∈ l, x ∈ data := fun x hx => hl x (List.mem_cons_of_mem rv hx)
    cases hhas : MapL.has bm rv.book_name with
    | true =>
      obtain ⟨hb, hc, hm⟩ := loadStep_seen data st bm rv hhas
      exact ih (loadStep data (st, bm) rv).1 (loadStep data (st, bm) rv).2 hl2
        (by rw [hb, hc]; exact h1) (by rw [hb]; exact h2) (by rw [hb]; exact h3)
        (by rw [hm, hb]; exact h4)
    | false =>
      obtain ⟨hb, hc, hm⟩ := loadStep_unseen data st bm rv hhas
      have hfreshid : ∀ p ∈ st.books, p.1 ≠ st.currentBookId := by
        intro p hp
        have := h1 p hp
        omega
      have hsetb : MapL.set st.books st.currentBookId
          { id := st.currentBookId, name := rv.book_name,
            testament := if rv.book ≤ 39 then "Old" else "New",
            chapters := List.foldl (fun m v => max m v.chapter) 0
              (List.filter (fun v => v.book_name = rv.book_name) data),
            order := rv.book } =
          st.books ++ [(st.currentBookId,
          { id := st.currentBookId, name := rv.book_name,
            testament := if rv.book ≤ 39 then "Old" else "New",
            chapters := List.foldl (fun m v => max m v.chapter) 0
              (List.filter (fun v => v.book_name = rv.book_name) data),
            order := rv.book })] := MapL.set_fresh _ _ _ hfreshid
      have hnoname : ¬∃ b ∈ MapL.values st.books, b.name = rv.book_name := by
        intro hex
        have := (h4 rv.book_name).mpr hex
        rw [hhas] at this
        exact Bool.false_ne_true this
      have hsetm : MapL.set bm rv.book_name
          { id := st.currentBookId, name := rv.book_name,
            testament := if rv.book ≤ 39 then "Old" else "New",
            chapters := List.foldl (fun m v => max m v.chapter) 0
              (List.filter (fun v => v.book_name = rv.book_name) data),
            order := rv.book } =
          bm ++ [(rv.book_name,
          { id := st.currentBookId, name := rv.book_name,
            testament := if rv.book ≤ 39 then "Old" else "New",
            chapters := List.foldl (fun m v => max m v.chapter) 0
              (List.filter (fun v => v.book_name = rv.book_name) data),
            order := rv.book })] := by
        apply MapL.set_fresh
        intro p hp
        have := List.any_eq_false.mp hhas p hp
        simpa using this
      apply ih (loadStep data (st, bm) rv).1 (loadStep data (st, bm) rv).2 hl2
      · rw [hb, hc, hsetb]
        intro p hp
        rcases List.mem_append.mp hp with hp | hp
        · have := h1 p hp
          exact ⟨this.1, by omega⟩
        · rw [List.mem_singleton.mp hp]
          exact ⟨rfl, Nat.lt_succ_self _⟩
      · rw [hb, hsetb, MapL.values_append]
        intro b hbmem
        rcases List.mem_append.mp hbmem with hbm | hbm
        · exact h2 b hbm
        · rw [List.mem_singleton.mp hbm]
          constructor
          · by_cases ho : rv.book ≤ 39
            · rw [if_pos ho]
              simp [ho]
            · rw [if_neg ho]
              simp only []
              constructor
              · intro hcontra
                exact absurd hcontra (by decide)
              · intro hcontra
                exact absurd hcontra ho
          · exact ⟨rv, hl rv (List.mem_cons_self rv l), rfl, rfl⟩
      · rw [hb, hsetb, MapL.values_append]
        rw [List.pairwise_append]
        refine ⟨h3, List.pairwise_singleton _ _, ?_⟩
        intro a ha b hbm
        rw [List.mem_singleton.mp hbm]
        intro hcontra
        exact hnoname ⟨a, ha, hcontra⟩
      · rw [hm, hb, hsetm, hsetb, MapL.values_append]
        intro nm
        constructor
        · intro hany
          simp only [MapL.has, List.any_append, Bool.or_eq_true] at hany
          rcases hany with hany | hany
          · obtain ⟨b2, hb2, hb2n⟩ := (h4 nm).mp hany
            exact ⟨b2, List.mem_append_left _ hb2, hb2n⟩
          · simp only [List.any_cons, List.any_nil, Bool.or_false,
              decide_eq_true_eq] at hany
            refine ⟨_, List.mem_append_right _ (List.mem_singleton.mpr rfl), hany⟩
        · intro hex
          obtain ⟨b2, hb2, hb2n⟩ := hex
          simp only [MapL.has, List.any_append, Bool.or_eq_true]
          rcases List.mem_append.mp hb2 with hbm2 | hbm2
          · exact Or.inl ((h4 nm).mpr ⟨b2, hbm2, hb2n⟩)
          · right
            simp only [List.any_cons, List.any_nil, Bool.or_false,
              decide_eq_true_eq]
            rw [List.mem_singleton.mp hbm2] at hb2n
            exact hb2n

/-- C9 (amended).  Every book registered by the loader has testament
"Old" iff its order is at most 39, and the same holds for the fallback
sample data, whose orders are pairwise distinct; the loaded order values
are pairwise distinct provided entries with different book names carry
different book ordinals (the loader copies the ordinal of the first entry
of each name, so distinctness cannot hold for arbitrary datasets). -/
theorem loader_books_spec (data : List RawVerse) :
    (∀ b ∈ MapL.values (initBibleData data).books,
      (b.testament = "Old" ↔ b.order ≤ 39)) ∧
    ((∀ rv1 ∈ data, ∀ rv2 ∈ data,
        rv1.book_name ≠ rv2.book_name → rv1.book ≠ rv2.book) →
      List.Pairwise (fun b1 b2 => b1.order ≠ b2.order)
        (MapL.values (initBibleData data).books)) ∧
    (∀ b ∈ MapL.values initSampleData.books,
      (b.testament = "Old" ↔ b.order ≤ 39)) ∧
    List.Pairwise (fun b1 b2 => b1.order ≠ b2.order)
      (MapL.values initSampleData.books) := by
  obtain ⟨hids, hprops, hpair, hhas⟩ :=
    load_invariant data data emptyStorage [] (fun rv h => h)
      (fun p hp => absurd hp (List.not_mem_nil p))
      (fun b hb => absurd hb (List.not_mem_nil b))
      List.Pairwise.nil
      (by
        intro nm
        constructor
        · intro h
          exact absurd h (by simp [MapL.has, emptyStorage])
        · rintro ⟨b, hb, -⟩
          exact absurd hb (List.not_mem_nil b))
  simp only [initBibleData]
  refine ⟨fun b hb => (hprops b hb).1, ?_, by decide, by decide⟩
  intro hinj
  refine List.Pairwise.imp_of_mem ?_ hpair
  intro a b ha hb hname
  obtain ⟨-, rva, hrva, hna, hoa⟩ := hprops a ha
  obtain ⟨-, rvb, hrvb, hnb, hob⟩ := hprops b hb
  have hne : rva.book_name ≠ rvb.book_name := by
    rw [hna, hnb]
    exact hname
  have := hinj rva hrva rvb hrvb hne
  rw [hoa, hob] at this
  exact this

/-- Witness for C9 at a two-entry dataset whose book names carry distinct
ordinals. -/
theorem loader_books_spec_witness :
    (∀ rv1 ∈ ([⟨1, "A", 1, 1, "x"⟩, ⟨40, "B", 1, 1, "y"⟩] : List RawVerse),
      ∀ rv2 ∈ ([⟨1, "A", 1, 1, "x"⟩, ⟨40, "B", 1, 1, "y"⟩] : List RawVerse),
      rv1.book_name ≠ rv2.book_name → rv1.book ≠ rv2.book) ∧
    (∀ b ∈ MapL.values (initBibleData
        [⟨1, "A", 1, 1, "x"⟩, ⟨40, "B", 1, 1, "y"⟩]).books,
      (b.testament = "Old" ↔ b.order ≤ 39)) ∧
    List.Pairwise (fun b1 b2 => b1.order ≠ b2.order)
      (MapL.values (initBibleData
        [⟨1, "A", 1, 1, "x"⟩, ⟨40, "B", 1, 1, "y"⟩]).books) :=
  ⟨by decide,
   (loader_books_spec [⟨1, "A", 1, 1, "x"⟩, ⟨40, "B", 1, 1, "y"⟩]).1,
   (loader_books_spec [⟨1, "A", 1, 1, "x"⟩, ⟨40, "B", 1, 1, "y"⟩]).2.1 (by decide)⟩

/-- Counterexample for C9 as stated: a dataset the loader accepts in
which two different book names carry the same ordinal 1 produces two
books whose order values are both 1, so the loaded order values are not
pairwise distinct. -/
theorem loader_books_order_clash :
    List.map (fun b => b.order) (MapL.values (initBibleData
      [⟨1, "A", 1, 1, "x"⟩, ⟨1, "B", 1, 1, "y"⟩]).books) = [1, 1] ∧
    ¬ List.Pairwise (fun b1 b2 => b1.order ≠ b2.order)
      (MapL.values (initBibleData
        [⟨1, "A", 1, 1, "x"⟩, ⟨1, "B", 1, 1, "y"⟩]).books) := by
  constructor
  · decide
  · decide

end MyBible
